import Mathlib

/-!
Verification development for the pokemon-trainer repository.

Shallow embedding of the memory-mapped state decoder
(src/core/emulator.py), the action model (src/core/actions.py), the
environment step dispatch (src/core/env_pokemon_red.py) and the
observation-pipeline factory (src/core/env_wrappers.py).

Emulator memory is modelled as a total function from addresses to byte
values; the PyBoy collaborator is external, so reads are just function
application.  Logging of decode diagnostics is modelled as an explicit
Boolean component of the corresponding decoder's result.
-/

namespace PokemonRed

/-- Memory model: address to byte value, as pyboy.memory byte reads. -/
abbrev Mem := Nat → Nat

/-- Address constant MONEY_ADDR from PokemonRedGameWrapper. -/
def MONEY_ADDR : Nat := 0xD347

/-- Address constant RIVAL_NAME_ADDR from PokemonRedGameWrapper. -/
def RIVAL_NAME_ADDR : Nat := 0xD34A

/-- Address constant PLAYER_NAME_ADDR from PokemonRedGameWrapper. -/
def PLAYER_NAME_ADDR : Nat := 0xD158

/-- Address constant PARTY_COUNT_ADDR from PokemonRedGameWrapper. -/
def PARTY_COUNT_ADDR : Nat := 0xD163

/-- Address constant PARTY_SPECIES_LIST_ADDR from PokemonRedGameWrapper. -/
def PARTY_SPECIES_LIST_ADDR : Nat := 0xD164

/-- Terminator byte for the party species list. -/
def PARTY_TERMINATOR : Nat := 0xFF

/-- Terminator byte for text strings (names, nicknames). -/
def TEXT_TERMINATOR : Nat := 0x50

/-- Embedding of get_memory_value: a single byte read. -/
def get_memory_value (mem : Mem) (addr : Nat) : Nat := mem addr

/-- High nibble of a byte, as computed in decode_bcd. -/
def hi_nibble (b : Nat) : Nat := (b >>> 4) &&& 0x0F

/-- Low nibble of a byte, as computed in decode_bcd. -/
def lo_nibble (b : Nat) : Nat := b &&& 0x0F

/-- Embedding of PokemonRedGameWrapper decode_bcd: if either nibble
exceeds 9 the byte is malformed and 0 is returned, otherwise
high_nibble * 10 + low_nibble. -/
def decode_bcd (bcd_value : Nat) : Nat :=
  if 9 < hi_nibble bcd_value ∨ 9 < lo_nibble bcd_value then 0
  else hi_nibble bcd_value * 10 + lo_nibble bcd_value

/-- Whether decode_bcd emits its invalid-BCD warning on this byte
(the logging.warning call in the malformed branch). -/
def decode_bcd_warns (bcd_value : Nat) : Bool :=
  decide (9 < hi_nibble bcd_value) || decide (9 < lo_nibble bcd_value)

/-- Embedding of get_player_money: three consecutive BCD bytes at
MONEY_ADDR combined with positional weights 10000, 100, 1. -/
def get_player_money (mem : Mem) : Nat :=
  decode_bcd (get_memory_value mem MONEY_ADDR) * 10000 +
  decode_bcd (get_memory_value mem (MONEY_ADDR + 1)) * 100 +
  decode_bcd (get_memory_value mem (MONEY_ADDR + 2))

/-- Result record of extract_ivs (the dict returned by the Python code). -/
structure IVs where
  hp : Nat
  attack : Nat
  defense : Nat
  speed : Nat
  special : Nat
deriving DecidableEq

/-- Embedding of PokemonRedGameWrapper extract_ivs: nibble-unpacks
attack/defense from byte 1 and speed/special from byte 2, and derives
the HP IV from the low bits of the other four. -/
def extract_ivs (iv_byte1 iv_byte2 : Nat) : IVs :=
  let attack_iv := (iv_byte1 >>> 4) &&& 0x0F
  let defense_iv := iv_byte1 &&& 0x0F
  let speed_iv := (iv_byte2 >>> 4) &&& 0x0F
  let special_iv := iv_byte2 &&& 0x0F
  let hp_iv := ((attack_iv &&& 1) <<< 3) ||| ((defense_iv &&& 1) <<< 2) |||
               ((speed_iv &&& 1) <<< 1) ||| (special_iv &&& 1)
  ⟨hp_iv, attack_iv, defense_iv, speed_iv, special_iv⟩

/-- Helper bound: a nibble extracted with a 0x0F mask is at most 15. -/
theorem nibble_le_15 (x : Nat) : x &&& 0x0F ≤ 15 :=
  Nat.and_le_right

/-- Helper bound: decode_bcd never exceeds 99. -/
theorem decode_bcd_le_99 (b : Nat) : decode_bcd b ≤ 99 := by
  unfold decode_bcd
  have h1 : hi_nibble b ≤ 15 := nibble_le_15 _
  have h2 : lo_nibble b ≤ 15 := nibble_le_15 _
  split_ifs with h
  · omega
  · omega

/-- Helper: decode_bcd on a byte with both nibbles valid. -/
theorem decode_bcd_valid (b : Nat) (h1 : hi_nibble b ≤ 9) (h2 : lo_nibble b ≤ 9) :
    decode_bcd b = hi_nibble b * 10 + lo_nibble b := by
  unfold decode_bcd
  split_ifs with h
  · omega
  · rfl

/-- Helper: decode_bcd on a malformed byte returns 0. -/
theorem decode_bcd_invalid (b : Nat) (h : 9 < hi_nibble b ∨ 9 < lo_nibble b) :
    decode_bcd b = 0 := by
  unfold decode_bcd
  rw [if_pos h]

/-- Embedding of the POKEMON_CHARS code-page dictionary of decode_text
(the Python dict, as an association list in declaration order). -/
def POKEMON_CHARS : List (Nat × String) := [
  (0x50, ""),
  (0x7F, " "), (0x80, "A"), (0x81, "B"), (0x82, "C"), (0x83, "D"), (0x84, "E"), (0x85, "F"),
  (0x86, "G"), (0x87, "H"), (0x88, "I"), (0x89, "J"), (0x8A, "K"), (0x8B, "L"), (0x8C, "M"),
  (0x8D, "N"), (0x8E, "O"), (0x8F, "P"), (0x90, "Q"), (0x91, "R"), (0x92, "S"), (0x93, "T"),
  (0x94, "U"), (0x95, "V"), (0x96, "W"), (0x97, "X"), (0x98, "Y"), (0x99, "Z"),
  (0xA0, "a"), (0xA1, "b"), (0xA2, "c"), (0xA3, "d"), (0xA4, "e"), (0xA5, "f"),
  (0xA6, "g"), (0xA7, "h"), (0xA8, "i"), (0xA9, "j"), (0xAA, "k"), (0xAB, "l"), (0xAC, "m"),
  (0xAD, "n"), (0xAE, "o"), (0xAF, "p"), (0xB0, "q"), (0xB1, "r"), (0xB2, "s"), (0xB3, "t"),
  (0xB4, "u"), (0xB5, "v"), (0xB6, "w"), (0xB7, "x"), (0xB8, "y"), (0xB9, "z"),
  (0xF6, "0"), (0xF7, "1"), (0xF8, "2"), (0xF9, "3"), (0xFA, "4"), (0xFB, "5"), (0xFC, "6"),
  (0xFD, "7"), (0xFE, "8"), (0xFF, "9")]

/-- Dictionary lookup with default, as POKEMON_CHARS.get(byte, "?"). -/
def pokemon_char (b : Nat) : String :=
  ((POKEMON_CHARS.lookup b).getD ("?"))

/-- Embedding of decode_text: each byte is mapped through the code page
(unknown bytes become the placeholder) and the pieces are joined. -/
def decode_text : List Nat → String
  | [] => ""
  | b :: bs => pokemon_char b ++ decode_text bs

/-- Bounded terminator-halting byte scan shared by the name reads
(terminator 0x50, at most 7 bytes) and the party-species read
(terminator 0xFF, at most party_count bytes): reads a byte, stops
before appending when it equals the terminator, else appends it and
advances to the next address. -/
def read_bytes_until (mem : Mem) (term : Nat) (addr : Nat) : Nat → List Nat
  | 0 => []
  | n + 1 =>
    let byte := get_memory_value mem addr
    if byte = term then [] else byte :: read_bytes_until mem term (addr + 1) n

/-- Embedding of get_player_name: up to 7 bytes from PLAYER_NAME_ADDR,
stopping at the 0x50 terminator, then decoded as text. -/
def get_player_name (mem : Mem) : String :=
  decode_text (read_bytes_until mem TEXT_TERMINATOR PLAYER_NAME_ADDR 7)

/-- Embedding of get_rival_name: up to 7 bytes from RIVAL_NAME_ADDR,
stopping at the 0x50 terminator, then decoded as text. -/
def get_rival_name (mem : Mem) : String :=
  decode_text (read_bytes_until mem TEXT_TERMINATOR RIVAL_NAME_ADDR 7)

/-- Embedding of get_party_species.  The first component is the species
list (early return [] when the party count is 0; otherwise up to
party_count bytes from PARTY_SPECIES_LIST_ADDR, truncated at the first
0xFF).  The second component records whether the missing-terminator
warning fires: the byte right after the declared count is checked
against 0xFF (only on the non-empty path, which is the only path that
reaches the check). -/
def get_party_species (mem : Mem) : List Nat × Bool :=
  let party_count := get_memory_value mem PARTY_COUNT_ADDR
  if party_count = 0 then ([], false)
  else
    (read_bytes_until mem PARTY_TERMINATOR PARTY_SPECIES_LIST_ADDR party_count,
     get_memory_value mem (PARTY_SPECIES_LIST_ADDR + party_count) != PARTY_TERMINATOR)

/-- Characterization of the bounded scan: it returns exactly the longest
non-terminator prefix of the n bytes laid out from addr. -/
theorem read_bytes_until_eq_takeWhile (mem : Mem) (term : Nat) :
    ∀ (n : Nat) (addr : Nat),
      read_bytes_until mem term addr n =
        ((List.range n).map fun i => mem (addr + i)).takeWhile (fun b => b != term) := by
  intro n
  induction n with
  | zero => intro addr; simp [read_bytes_until]
  | succ n ih =>
    intro addr
    rw [List.range_succ_eq_map]
    have harg : ((List.range n).map Nat.succ).map (fun i => mem (addr + i)) =
        (List.range n).map (fun i => mem (addr + 1 + i)) := by
      rw [List.map_map]
      refine List.map_congr_left ?_
      intro i _
      simp only [Function.comp]
      congr 1
      omega
    by_cases h : mem addr = term
    · simp only [read_bytes_until, get_memory_value, h, if_true, List.map_cons]
      rw [List.takeWhile_cons_of_neg (by simp [h])]
    · simp only [read_bytes_until, get_memory_value, if_neg h, List.map_cons]
      rw [List.takeWhile_cons_of_pos (by simp [h])]
      rw [ih (addr + 1), harg]
      simp

/-- Byte scans never return more than the requested number of bytes. -/
theorem read_bytes_until_length_le (mem : Mem) (term addr n : Nat) :
    (read_bytes_until mem term addr n).length ≤ n := by
  rw [read_bytes_until_eq_takeWhile]
  calc (((List.range n).map fun i => mem (addr + i)).takeWhile (fun b => b != term)).length
      ≤ ((List.range n).map fun i => mem (addr + i)).length :=
        (List.takeWhile_sublist _).length_le
    _ = n := by simp

/-- Bytes returned by a scan are never the terminator. -/
theorem read_bytes_until_mem_ne_term (mem : Mem) (term addr n : Nat) :
    ∀ b ∈ read_bytes_until mem term addr n, b ≠ term := by
  intro b hb
  rw [read_bytes_until_eq_takeWhile] at hb
  have := List.mem_takeWhile_imp hb
  simpa using this

/-- When none of the n bytes is the terminator the scan returns all of
them. -/
theorem read_bytes_until_full (mem : Mem) (term addr n : Nat)
    (h : ∀ i < n, mem (addr + i) ≠ term) :
    (read_bytes_until mem term addr n).length = n := by
  rw [read_bytes_until_eq_takeWhile]
  rw [List.takeWhile_eq_self_iff.2]
  · simp
  · intro x hx
    rcases List.mem_map.1 hx with ⟨i, hi, rfl⟩
    simp only [bne_iff_ne, ne_eq]
    exact h i (List.mem_range.1 hi)

/-- Every code-page entry other than the terminator decodes to a single
character. -/
theorem lookup_getD_length_one
    (l : List (Nat × String)) (t b : Nat)
    (hl : ∀ p ∈ l, p.1 = t ∨ p.2.length = 1) (hb : b ≠ t) :
    (((l.lookup b).getD ("?"))).length = 1 := by
  induction l with
  | nil => rfl
  | cons p l ih =>
    rcases p with ⟨k, v⟩
    by_cases hk : b = k
    · subst hk
      have := hl ⟨b, v⟩ (by simp)
      simp only at this
      rcases this with h | h
      · exact absurd h hb
      · simp [List.lookup, h]
    · rw [List.lookup]
      have : (b == k) = false := by simp [hk]
      rw [this]
      exact ih (fun p hp => hl p (by simp [hp]))

/-- Non-terminator bytes decode to exactly one character each. -/
theorem pokemon_char_length_one (b : Nat) (hb : b ≠ TEXT_TERMINATOR) :
    (pokemon_char b).length = 1 := by
  unfold pokemon_char
  refine lookup_getD_length_one POKEMON_CHARS TEXT_TERMINATOR b ?_ hb
  decide

/-- Decoded length equals byte count when no byte is the terminator. -/
theorem decode_text_length (bs : List Nat) (h : ∀ b ∈ bs, b ≠ TEXT_TERMINATOR) :
    (decode_text bs).length = bs.length := by
  induction bs with
  | nil => rfl
  | cons b bs ih =>
    simp only [decode_text, String.length_append, List.length_cons]
    rw [pokemon_char_length_one b (h b (by simp)),
        ih (fun x hx => h x (by simp [hx]))]
    omega

/-- Embedding of the KeyName enum from src/core/actions.py, in
declaration order. -/
inductive KeyName
  | A | B | UP | DOWN | LEFT | RIGHT | START | SELECT
deriving DecidableEq

/-- Embedding of the ActionType enum. -/
inductive ActionType
  | KEY_PRESS | WAIT
deriving DecidableEq

/-- Embedding of the Action pydantic model: a type tag and an optional
key (set only for key presses). -/
structure Action where
  type : ActionType
  key : Option KeyName
deriving DecidableEq

/-- Iteration order of the KeyName enum (Python iterates enums in
declaration order). -/
def keyNameMembers : List KeyName :=
  [KeyName.A, KeyName.B, KeyName.UP, KeyName.DOWN,
   KeyName.LEFT, KeyName.RIGHT, KeyName.START, KeyName.SELECT]

/-- String value of a KeyName enum member. -/
def key_value : KeyName → String
  | KeyName.A => "A"
  | KeyName.B => "B"
  | KeyName.UP => "UP"
  | KeyName.DOWN => "DOWN"
  | KeyName.LEFT => "LEFT"
  | KeyName.RIGHT => "RIGHT"
  | KeyName.START => "START"
  | KeyName.SELECT => "SELECT"

/-- Embedding of ALL_ACTIONS: one KEY_PRESS action per key in enum
order, followed by the single WAIT action. -/
def ALL_ACTIONS : List Action :=
  (keyNameMembers.map fun k => ⟨ActionType.KEY_PRESS, some k⟩) ++
  [⟨ActionType.WAIT, none⟩]

/-- Discrete action-space size of PokemonRedEnv
(spaces.Discrete(len(ALL_ACTIONS))). -/
def action_space_size : Nat := ALL_ACTIONS.length

/-- CPython list subscript semantics for an integer index: a negative
index is first shifted by the list length, then the effective index is
bounds-checked; out of bounds is an IndexError, modelled as none. -/
def pyListGet {α : Type} (l : List α) (i : Int) : Option α :=
  if 0 ≤ i then l[i.toNat]?
  else if -(l.length : Int) ≤ i then l[(i + l.length).toNat]?
  else none

/-- Commands issued to the PyBoy emulator collaborator. -/
inductive EmuCmd
  | button (key : String)
  | tick (frames : Nat)
deriving DecidableEq

/-- Embedding of perform_emulator_action: an empty press list is a pure
wait (tick only); otherwise each button is pressed and followed by a
tick of wait_frames. -/
def perform_emulator_action (button_presses : List String) (wait_frames : Nat) :
    List EmuCmd :=
  if button_presses = [] then [EmuCmd.tick wait_frames]
  else ((button_presses.map fun btn => [EmuCmd.button btn, EmuCmd.tick wait_frames])).flatten

/-- Embedding of PokemonRedEnv.step up to its emulator effects: the
action index is resolved by plain Python list subscripting on
ALL_ACTIONS (none models the IndexError), and the resolved action is
dispatched to perform_emulator_action.  A KEY_PRESS action with no key
matches neither branch of the dispatch and issues no commands. -/
def step_commands (action_idx : Int) (wait_frames : Nat) : Option (List EmuCmd) :=
  match pyListGet ALL_ACTIONS action_idx with
  | none => none
  | some action =>
    match action.type, action.key with
    | ActionType.KEY_PRESS, some k => some (perform_emulator_action [key_value k] wait_frames)
    | ActionType.KEY_PRESS, none => some []
    | ActionType.WAIT, _ => some (perform_emulator_action [] wait_frames)

/-- Observable resource events of the make_pokemon_red_env factory, in
execution order.  allocEnv is the PokemonRedEnv construction, which
allocates the PyBoy emulator. -/
inductive PipelineEv
  | allocEnv
  | resizeObs (height width : Nat)
  | dropAlpha
  | grayscaleObs
  | frameStackObs (stack_size : Nat)
deriving DecidableEq

/-- Embedding of make_pokemon_red_env from src/core/env_wrappers.py as
a trace semantics: the returned list holds the resource events executed
before the function returns or raises, and the Except component is the
outcome.  The base environment (and with it the emulator) is
constructed first on every path; the mode string is only examined
afterwards, and an unknown mode raises ValueError. -/
def make_pokemon_red_env (mode : String) (shape : Nat × Nat) (num_stack : Nat) :
    List PipelineEv × Except String Unit :=
  if mode = "rl" then
    ([PipelineEv.allocEnv, PipelineEv.resizeObs shape.1 shape.2, PipelineEv.dropAlpha,
      PipelineEv.grayscaleObs, PipelineEv.frameStackObs num_stack], Except.ok ())
  else if mode = "llm" then
    ([PipelineEv.allocEnv, PipelineEv.resizeObs shape.1 shape.2, PipelineEv.dropAlpha],
     Except.ok ())
  else if mode = "human" then
    ([PipelineEv.allocEnv, PipelineEv.dropAlpha], Except.ok ())
  else
    ([PipelineEv.allocEnv], Except.error ("Unknown mode " ++ mode))

/-- Whether a factory outcome is the unrecognized-mode ValueError. -/
def is_config_error : Except String Unit → Bool
  | Except.error _ => true
  | Except.ok _ => false

/-- Modelled from the spec: the frame-stack reset behaviour of the
external FrameStackObservation wrapper (gymnasium), whose code is not
part of this repository.  Spec section 4.4: on environment reset the
buffer is reinitialized by replicating the first frame stack_size
times. -/
def frame_stack_reset (stack_size : Nat) (first_frame : Nat) : List Nat :=
  List.replicate stack_size first_frame

/-- Modelled from the spec: the frame-stack push behaviour of the
external FrameStackObservation wrapper.  Spec section 4.4: a fixed-size
rolling buffer of the last stack_size frames, oldest evicted on
overflow. -/
def frame_stack_push (stack_size : Nat) (buf : List Nat) (frame : Nat) : List Nat :=
  (buf ++ [frame]).drop (buf.length + 1 - stack_size)

/-- Sequence of stacked observations produced from a starting buffer:
the buffer contents are returned as the observation at every step while
later frames are pushed one by one. -/
def frame_stack_buffers (stack_size : Nat) (buf : List Nat) : List Nat → List (List Nat)
  | [] => [buf]
  | f :: fs => buf :: frame_stack_buffers stack_size (frame_stack_push stack_size buf f) fs

/-- All stacked observations of an episode that starts with a reset
seeing first_frame and then observes later_frames in order. -/
def episode_observations (stack_size : Nat) (first_frame : Nat)
    (later_frames : List Nat) : List (List Nat) :=
  frame_stack_buffers stack_size (frame_stack_reset stack_size first_frame) later_frames

/-- Memory holding three given bytes at the money address and zero
elsewhere, used to evaluate the decoders on concrete inputs. -/
def mem_money_bytes (b0 b1 b2 : Nat) : Mem := fun a =>
  if a = MONEY_ADDR then b0
  else if a = MONEY_ADDR + 1 then b1
  else if a = MONEY_ADDR + 2 then b2
  else 0

/-- Helper: the first observation of an episode is the reset buffer. -/
theorem frame_stack_buffers_head (stack_size : Nat) (buf : List Nat) (fs : List Nat) :
    (frame_stack_buffers stack_size buf fs).head? = some buf := by
  cases fs <;> rfl

/-- Helper: any property holding for the starting buffer and all pushed
frames holds for every element of every observation. -/
theorem frame_stack_buffers_sound (stack_size : Nat) (P : Nat → Prop) :
    ∀ (fs : List Nat) (buf : List Nat), (∀ x ∈ buf, P x) → (∀ f ∈ fs, P f) →
      ∀ obs ∈ frame_stack_buffers stack_size buf fs, ∀ x ∈ obs, P x := by
  intro fs
  induction fs with
  | nil =>
    intro buf hb _ obs hobs
    simp only [frame_stack_buffers, List.mem_singleton] at hobs
    subst hobs
    exact hb
  | cons f fs ih =>
    intro buf hb hf obs hobs
    simp only [frame_stack_buffers, List.mem_cons] at hobs
    rcases hobs with rfl | hobs
    · exact hb
    · refine ih (frame_stack_push stack_size buf f) ?_ ?_ obs hobs
      · intro x hx
        unfold frame_stack_push at hx
        rcases List.mem_append.1 (List.mem_of_mem_drop hx) with h | h
        · exact hb x h
        · rw [List.mem_singleton] at h
          rw [h]
          exact hf f (by simp)
      · intro g hg
        exact hf g (by simp [hg])

/-- Helper: pyListGet misses exactly outside [-length, length). -/
theorem pyListGet_eq_none_iff {α : Type} (l : List α) (i : Int) :
    pyListGet l i = none ↔ ((l.length : Int) ≤ i ∨ i < -(l.length : Int)) := by
  unfold pyListGet
  split_ifs with h1 h2
  · simp only [List.getElem?_eq_none_iff]
    omega
  · simp only [List.getElem?_eq_none_iff]
    omega
  · simp only [true_iff]
    omega

/-- Memory with party count 3, species 1, 2, 3 and the terminator in
place, used to evaluate the party decoder on a concrete input. -/
def mem_party_example : Mem := fun a =>
  if a = PARTY_COUNT_ADDR then 3
  else if a = PARTY_SPECIES_LIST_ADDR then 1
  else if a = PARTY_SPECIES_LIST_ADDR + 1 then 2
  else if a = PARTY_SPECIES_LIST_ADDR + 2 then 3
  else if a = PARTY_SPECIES_LIST_ADDR + 3 then 0xFF
  else 0

/-- Memory whose player name runs the full 7 characters with the text
terminator in the 8th slot. -/
def mem_name_example : Mem := fun a =>
  if a = PLAYER_NAME_ADDR + 7 then 0x50 else 0x81

/-- C3: the enumerated action list has exactly the 9 entries, 8 key
presses in the fixed key order A, B, UP, DOWN, LEFT, RIGHT, START,
SELECT followed by the single wait action, and the discrete
action-space size equals the number of enumerated actions, 9.  The
enumeration is a constant, so index resolution cannot change over a
process lifetime. -/
theorem claim_C3_action_enumeration :
    ALL_ACTIONS =
      [⟨ActionType.KEY_PRESS, some KeyName.A⟩, ⟨ActionType.KEY_PRESS, some KeyName.B⟩,
       ⟨ActionType.KEY_PRESS, some KeyName.UP⟩, ⟨ActionType.KEY_PRESS, some KeyName.DOWN⟩,
       ⟨ActionType.KEY_PRESS, some KeyName.LEFT⟩, ⟨ActionType.KEY_PRESS, some KeyName.RIGHT⟩,
       ⟨ActionType.KEY_PRESS, some KeyName.START⟩, ⟨ActionType.KEY_PRESS, some KeyName.SELECT⟩,
       ⟨ActionType.WAIT, none⟩] ∧
    ALL_ACTIONS.length = 9 ∧ action_space_size = 9 := by
  refine ⟨rfl, rfl, rfl⟩

/-- C4: get_player_money reads the three consecutive bytes at the money
address and combines their BCD decodes with weights 10000, 100, 1; the
bytes 0x12 0x34 0x56 decode to 123456, zero bytes to 0, 0x99 bytes to
999999, and the result always lies in [0, 999999]. -/
theorem claim_C4_player_money :
    (∀ mem : Mem,
      get_player_money mem =
        decode_bcd (mem MONEY_ADDR) * 10000 + decode_bcd (mem (MONEY_ADDR + 1)) * 100 +
          decode_bcd (mem (MONEY_ADDR + 2)) ∧
      get_player_money mem ≤ 999999) ∧
    get_player_money (mem_money_bytes 0x12 0x34 0x56) = 123456 ∧
    get_player_money (mem_money_bytes 0x00 0x00 0x00) = 0 ∧
    get_player_money (mem_money_bytes 0x99 0x99 0x99) = 999999 := by
  refine ⟨fun mem => ⟨rfl, ?_⟩, by decide, by decide, by decide⟩
  have h0 := decode_bcd_le_99 (mem MONEY_ADDR)
  have h1 := decode_bcd_le_99 (mem (MONEY_ADDR + 1))
  have h2 := decode_bcd_le_99 (mem (MONEY_ADDR + 2))
  unfold get_player_money get_memory_value
  omega

/-- C5: for every byte whose two nibbles are both at most 9 the BCD
decoder returns high * 10 + low without a diagnostic; for every byte
with a nibble above 9 it returns 0 and emits the diagnostic. -/
theorem claim_C5_decode_bcd :
    (∀ b : Nat, hi_nibble b ≤ 9 → lo_nibble b ≤ 9 →
      decode_bcd b = hi_nibble b * 10 + lo_nibble b ∧ decode_bcd_warns b = false) ∧
    (∀ b : Nat, 9 < hi_nibble b ∨ 9 < lo_nibble b →
      decode_bcd b = 0 ∧ decode_bcd_warns b = true) := by
  constructor
  · intro b h1 h2
    refine ⟨decode_bcd_valid b h1 h2, ?_⟩
    unfold decode_bcd_warns
    simp only [Bool.or_eq_false_iff, decide_eq_false_iff_not, not_lt]
    exact ⟨h1, h2⟩
  · intro b h
    refine ⟨decode_bcd_invalid b h, ?_⟩
    unfold decode_bcd_warns
    rcases h with h | h <;> simp [h]

/-- Witness for C5 at the concrete bytes 0x59 (valid) and 0xFF
(malformed). -/
theorem claim_C5_decode_bcd_witness :
    (decode_bcd 0x59 = hi_nibble 0x59 * 10 + lo_nibble 0x59 ∧
      decode_bcd_warns 0x59 = false) ∧
    (decode_bcd 0xFF = 0 ∧ decode_bcd_warns 0xFF = true) :=
  ⟨claim_C5_decode_bcd.1 0x59 (by decide) (by decide),
   claim_C5_decode_bcd.2 0xFF (by decide)⟩

/-- C8: extract_ivs unpacks attack and defense from the nibbles of byte
1 and speed and special from the nibbles of byte 2, every value is at
most 15, and the HP IV combines the low bits of the four as
(atk and 1) shifted 3, (def and 1) shifted 2, (spd and 1) shifted 1,
(spc and 1). -/
theorem claim_C8_extract_ivs :
    ∀ iv_byte1 iv_byte2 : Nat,
      (extract_ivs iv_byte1 iv_byte2).attack = (iv_byte1 >>> 4) &&& 0x0F ∧
      (extract_ivs iv_byte1 iv_byte2).defense = iv_byte1 &&& 0x0F ∧
      (extract_ivs iv_byte1 iv_byte2).speed = (iv_byte2 >>> 4) &&& 0x0F ∧
      (extract_ivs iv_byte1 iv_byte2).special = iv_byte2 &&& 0x0F ∧
      (extract_ivs iv_byte1 iv_byte2).attack ≤ 15 ∧
      (extract_ivs iv_byte1 iv_byte2).defense ≤ 15 ∧
      (extract_ivs iv_byte1 iv_byte2).speed ≤ 15 ∧
      (extract_ivs iv_byte1 iv_byte2).special ≤ 15 ∧
      (extract_ivs iv_byte1 iv_byte2).hp =
        (((extract_ivs iv_byte1 iv_byte2).attack &&& 1) <<< 3) |||
        (((extract_ivs iv_byte1 iv_byte2).defense &&& 1) <<< 2) |||
        (((extract_ivs iv_byte1 iv_byte2).speed &&& 1) <<< 1) |||
        ((extract_ivs iv_byte1 iv_byte2).special &&& 1) := by
  intro b1 b2
  exact ⟨rfl, rfl, rfl, rfl, nibble_le_15 _, nibble_le_15 _, nibble_le_15 _,
         nibble_le_15 _, rfl⟩

/-- C10: a malformed money byte contributes 0 at its own position while
the other bytes keep their positional contributions, so a single bad
byte does not zero the whole amount; the bytes 0xFF 0x34 0x56 decode to
3456. -/
theorem claim_C10_money_partial_invalid :
    (∀ mem : Mem,
      9 < hi_nibble (mem MONEY_ADDR) ∨ 9 < lo_nibble (mem MONEY_ADDR) →
      get_player_money mem =
        decode_bcd (mem (MONEY_ADDR + 1)) * 100 + decode_bcd (mem (MONEY_ADDR + 2))) ∧
    (∀ mem : Mem,
      9 < hi_nibble (mem (MONEY_ADDR + 1)) ∨ 9 < lo_nibble (mem (MONEY_ADDR + 1)) →
      get_player_money mem =
        decode_bcd (mem MONEY_ADDR) * 10000 + decode_bcd (mem (MONEY_ADDR + 2))) ∧
    (∀ mem : Mem,
      9 < hi_nibble (mem (MONEY_ADDR + 2)) ∨ 9 < lo_nibble (mem (MONEY_ADDR + 2)) →
      get_player_money mem =
        decode_bcd (mem MONEY_ADDR) * 10000 + decode_bcd (mem (MONEY_ADDR + 1)) * 100) ∧
    get_player_money (mem_money_bytes 0xFF 0x34 0x56) = 3456 := by
  refine ⟨?_, ?_, ?_, by decide⟩
  · intro mem h
    unfold get_player_money get_memory_value
    rw [decode_bcd_invalid _ h]
    omega
  · intro mem h
    unfold get_player_money get_memory_value
    rw [decode_bcd_invalid _ h]
    omega
  · intro mem h
    unfold get_player_money get_memory_value
    rw [decode_bcd_invalid _ h]
    omega

/-- Witness for C10 at the concrete money bytes 0xFF 0x34 0x56. -/
theorem claim_C10_money_partial_invalid_witness :
    get_player_money (mem_money_bytes 0xFF 0x34 0x56) =
      decode_bcd (mem_money_bytes 0xFF 0x34 0x56 (MONEY_ADDR + 1)) * 100 +
      decode_bcd (mem_money_bytes 0xFF 0x34 0x56 (MONEY_ADDR + 2)) :=
  claim_C10_money_partial_invalid.1 (mem_money_bytes 0xFF 0x34 0x56) (by decide)

/-- C6: get_party_species returns the species bytes in order from the
species-list base, truncated at the declared count or at the first 0xFF
terminator, whichever comes first; a count of 0 yields the empty list;
and a missing terminator right after the declared count only raises the
warning flag while the species list is still returned. -/
theorem claim_C6_party_species :
    ∀ mem : Mem,
      (mem PARTY_COUNT_ADDR = 0 → get_party_species mem = ([], false)) ∧
      (get_party_species mem).1 =
        ((List.range (mem PARTY_COUNT_ADDR)).map fun i =>
          mem (PARTY_SPECIES_LIST_ADDR + i)).takeWhile (fun b => b != PARTY_TERMINATOR) ∧
      (mem PARTY_COUNT_ADDR ≠ 0 →
        ((get_party_species mem).2 = true ↔
          mem (PARTY_SPECIES_LIST_ADDR + mem PARTY_COUNT_ADDR) ≠ PARTY_TERMINATOR)) := by
  intro mem
  refine ⟨?_, ?_, ?_⟩
  · intro h
    simp [get_party_species, get_memory_value, h]
  · by_cases h : mem PARTY_COUNT_ADDR = 0
    · simp [get_party_species, get_memory_value, h]
    · simp [get_party_species, get_memory_value, h, read_bytes_until_eq_takeWhile]
  · intro h
    simp [get_party_species, get_memory_value, h, bne_iff_ne]

/-- Witness for C6 at an all-zero memory (count 0) and at a concrete
party of three species with the terminator in place. -/
theorem claim_C6_party_species_witness :
    get_party_species (fun _ => 0) = ([], false) ∧
    ((get_party_species mem_party_example).2 = true ↔
      mem_party_example (PARTY_SPECIES_LIST_ADDR + mem_party_example PARTY_COUNT_ADDR) ≠
        PARTY_TERMINATOR) :=
  ⟨(claim_C6_party_species (fun _ => 0)).1 rfl,
   (claim_C6_party_species mem_party_example).2.2 (by decide)⟩

/-- C7: the player-name and rival-name reads scan at most 7 bytes from
the respective name address, stop at the first 0x50 terminator without
including it, decode to at most 7 characters, and a name whose
terminator sits in the 8th slot decodes to the full 7 characters. -/
theorem claim_C7_name_reads :
    ∀ mem : Mem,
      get_player_name mem =
        decode_text (((List.range 7).map fun i => mem (PLAYER_NAME_ADDR + i)).takeWhile
          (fun b => b != TEXT_TERMINATOR)) ∧
      get_rival_name mem =
        decode_text (((List.range 7).map fun i => mem (RIVAL_NAME_ADDR + i)).takeWhile
          (fun b => b != TEXT_TERMINATOR)) ∧
      (get_player_name mem).length ≤ 7 ∧
      (get_rival_name mem).length ≤ 7 ∧
      ((∀ i < 7, mem (PLAYER_NAME_ADDR + i) ≠ TEXT_TERMINATOR) →
        (get_player_name mem).length = 7) ∧
      ((∀ i < 7, mem (RIVAL_NAME_ADDR + i) ≠ TEXT_TERMINATOR) →
        (get_rival_name mem).length = 7) := by
  intro mem
  have hplen : (get_player_name mem).length =
      (read_bytes_until mem TEXT_TERMINATOR PLAYER_NAME_ADDR 7).length :=
    decode_text_length _ (read_bytes_until_mem_ne_term mem TEXT_TERMINATOR PLAYER_NAME_ADDR 7)
  have hrlen : (get_rival_name mem).length =
      (read_bytes_until mem TEXT_TERMINATOR RIVAL_NAME_ADDR 7).length :=
    decode_text_length _ (read_bytes_until_mem_ne_term mem TEXT_TERMINATOR RIVAL_NAME_ADDR 7)
  refine ⟨?_, ?_, ?_, ?_, ?_, ?_⟩
  · unfold get_player_name
    rw [read_bytes_until_eq_takeWhile]
  · unfold get_rival_name
    rw [read_bytes_until_eq_takeWhile]
  · rw [hplen]
    exact read_bytes_until_length_le mem TEXT_TERMINATOR PLAYER_NAME_ADDR 7
  · rw [hrlen]
    exact read_bytes_until_length_le mem TEXT_TERMINATOR RIVAL_NAME_ADDR 7
  · intro h
    rw [hplen]
    exact read_bytes_until_full mem TEXT_TERMINATOR PLAYER_NAME_ADDR 7 h
  · intro h
    rw [hrlen]
    exact read_bytes_until_full mem TEXT_TERMINATOR RIVAL_NAME_ADDR 7 h

/-- Witness for C7 at a memory whose player name has all 7 slots filled
and the terminator in the 8th slot. -/
theorem claim_C7_name_reads_witness :
    (get_player_name mem_name_example).length = 7 :=
  (claim_C7_name_reads mem_name_example).2.2.2.2.1 (by decide)

/-- C1 counterexample: step with action index -1 does not raise; plain
Python list subscripting wraps the negative index and executes the wait
action. -/
theorem claim_C1_counterexample :
    step_commands (-1) 8 = some [EmuCmd.tick 8] ∧ step_commands (-1) 8 ≠ none := by
  refine ⟨by decide, by decide⟩

/-- C1 (amended): step raises an index error exactly for action indices
at least 9 or below -9; every index in [-9, 9) resolves without an
index error, negative indices wrapping per Python list semantics. -/
theorem claim_C1_step_bounds :
    ∀ (action_idx : Int) (wait_frames : Nat),
      step_commands action_idx wait_frames = none ↔
        9 ≤ action_idx ∨ action_idx < -9 := by
  intro i wf
  have hnone : step_commands i wf = none ↔ pyListGet ALL_ACTIONS i = none := by
    unfold step_commands
    cases h : pyListGet ALL_ACTIONS i with
    | none => simp
    | some a =>
      rcases a with ⟨t, k⟩
      cases t <;> cases k <;> simp
  rw [hnone, pyListGet_eq_none_iff]
  have hl : ALL_ACTIONS.length = 9 := rfl
  rw [hl]
  norm_num

/-- C2 counterexample: the factory with the unrecognized mode string
bogus does raise the configuration error, but the emulator-allocating
environment construction is in the executed trace before the raise. -/
theorem claim_C2_counterexample :
    is_config_error (make_pokemon_red_env ("bogus") ((84, 84)) 4).2 = true ∧
    PipelineEv.allocEnv ∈ (make_pokemon_red_env ("bogus") ((84, 84)) 4).1 := by
  refine ⟨by decide, by decide⟩

/-- C2 (amended): an unrecognized preset name makes the factory raise
the configuration error, but only after the base environment and its
emulator have been allocated; no wrapper transform is applied on the
error path. -/
theorem claim_C2_unknown_mode :
    ∀ (mode : String) (shape : Nat × Nat) (num_stack : Nat),
      mode ≠ "rl" → mode ≠ "llm" → mode ≠ "human" →
      (make_pokemon_red_env mode shape num_stack).2 =
        Except.error ("Unknown mode " ++ mode) ∧
      (make_pokemon_red_env mode shape num_stack).1 = [PipelineEv.allocEnv] := by
  intro mode shape k h1 h2 h3
  unfold make_pokemon_red_env
  rw [if_neg h1, if_neg h2, if_neg h3]
  exact ⟨rfl, rfl⟩

/-- Witness for C2 (amended) at the concrete unrecognized mode xyz. -/
theorem claim_C2_unknown_mode_witness :
    (make_pokemon_red_env ("xyz") ((84, 84)) 4).2 =
      Except.error ("Unknown mode " ++ "xyz") ∧
    (make_pokemon_red_env ("xyz") ((84, 84)) 4).1 = [PipelineEv.allocEnv] :=
  claim_C2_unknown_mode ("xyz") ((84, 84)) 4 (by decide) (by decide) (by decide)

/-- C9: the first stacked observation after a reset is stack_size
identical copies of the initial frame, and every frame appearing in any
observation after the reset is either the initial frame or one observed
after the reset, so no pre-reset frame survives. -/
theorem claim_C9_frame_stack_reset :
    ∀ (stack_size : Nat) (first_frame : Nat) (later_frames : List Nat),
      (episode_observations stack_size first_frame later_frames).head? =
        some (List.replicate stack_size first_frame) ∧
      (∀ obs ∈ episode_observations stack_size first_frame later_frames,
        ∀ x ∈ obs, x = first_frame ∨ x ∈ later_frames) := by
  intro K f0 fs
  refine ⟨frame_stack_buffers_head K _ fs, ?_⟩
  refine frame_stack_buffers_sound K (fun x => x = f0 ∨ x ∈ fs) fs
    (frame_stack_reset K f0) ?_ ?_
  · intro x hx
    exact Or.inl (List.eq_of_mem_replicate hx)
  · intro f hf
    exact Or.inr hf

/-- Witness for C9 with stack size 2, initial frame 3 and one later
frame 4. -/
theorem claim_C9_frame_stack_reset_witness :
    (episode_observations 2 3 [4]).head? = some (List.replicate 2 3) ∧
    (4 = 3 ∨ 4 ∈ [4]) :=
  ⟨(claim_C9_frame_stack_reset 2 3 [4]).1,
   (claim_C9_frame_stack_reset 2 3 [4]).2 [3, 4] (by decide) 4 (by decide)⟩

end PokemonRed
